import Mathlib

/-!
Verification of the Smart-Invoice-Splitter repository's specification
against a shallow embedding of its source code.

Embedded components:
* `numberLike` / `optionalString` / the line-item schema —
  `src/public/js/main.js` (zod schema section, lines 1370-1454);
* `deriveProductTableHints` / `norm` / `scoreHeader` —
  `src/services/extractor/deriveProductTableHints.js`;
* the client status-polling loop — `src/public/js/main.js`
  (`startBatchStatusPolling`, lines 423-497, and the config block lines 8-15);
* the API route dispatch for the SPLIT_ONLY toggle — the api routes file
  (`sendArchivedApi` and the extraction/validation routes).

Modelling conventions:
* JavaScript numbers are modelled exactly: a finite value is an exact
  rational (`ℚ`), and NaN / +Infinity / -Infinity are separate
  constructors.  All the numeric strings this pipeline handles are decimal
  literals, which parse to exact decimal rationals, so exact-rational
  arithmetic coincides with the intended decimal semantics here.
* zod semantics: `z.union` tries its options in order; `z.number()`
  rejects NaN (zod's `getParsedType` classifies NaN as parsed type "nan",
  not "number") and accepts the infinities; `.optional()` maps a missing or
  `undefined` input to `undefined` without running the inner schema;
  `.transform` runs only after the inner schema accepted the input.
* A validator for a value returns `Option` (`none` = validation error).
  An optional field's validator takes `Option JsValue` (`none` = key
  absent) and returns `Option (Option α)`: outer `none` = validation
  error, `some none` = accepted as absent, `some (some a)` = accepted
  with value `a`.
-/

namespace Invoice

/-- A JavaScript number: an exact rational, or one of the non-finite values. -/
inductive JsNum where
  | finite (q : ℚ)
  | nan
  | posInf
  | negInf
deriving DecidableEq

/-- JS `Number.isFinite` on a JavaScript number. -/
def JsNum.isFinite : JsNum → Bool
  | .finite _ => true
  | _ => false

/-- The JavaScript values the embedded schema code can receive. -/
inductive JsValue where
  | vstr (s : String)
  | vnum (n : JsNum)
  | vbool (b : Bool)
  | vnull
  | vundef
deriving DecidableEq

/-- The whitespace class shared by JavaScript's `String.prototype.trim` and
the regexp class `\s` (restricted to the characters that can actually occur
here: ASCII whitespace plus NBSP and the BOM). -/
def isJsWhitespace (c : Char) : Bool :=
  c = ' ' || c = '\t' || c = '\n' || c = '\r' ||
  c.toNat = 11 || c.toNat = 12 || c.toNat = 0xA0 || c.toNat = 0xFEFF

/-- JS `String.prototype.trim` on a character list. -/
def jsTrimList (cs : List Char) : List Char :=
  ((cs.dropWhile isJsWhitespace).reverse.dropWhile isJsWhitespace).reverse

/-- Numeric value of a decimal digit character. -/
def digitVal (c : Char) : Nat := c.toNat - 48

/-- The natural number denoted by a list of decimal digits. -/
def natOfDigits (ds : List Char) : Nat :=
  ds.foldl (fun n c => n * 10 + digitVal c) 0

/-- Exponent digits after an optional sign: the whole rest of the input must
be one or more decimal digits. -/
def expDigits (neg : Bool) (r : List Char) : Option Int :=
  let p := r.span Char.isDigit
  if p.1 ≠ [] ∧ p.2 = [] then
    some (if neg then -(natOfDigits p.1 : Int) else (natOfDigits p.1 : Int))
  else none

/-- The signed exponent body after the `e` / `E` marker. -/
def parseSignedExp : List Char → Option Int
  | '+' :: r => expDigits false r
  | '-' :: r => expDigits true r
  | r => expDigits false r

/-- An optional trailing exponent part (`e`/`E`, optional sign, digits);
empty input means exponent 0, anything else is a parse failure. -/
def parseExpPart : List Char → Option Int
  | [] => some 0
  | 'e' :: r => parseSignedExp r
  | 'E' :: r => parseSignedExp r
  | _ => none

/-- An unsigned decimal literal as `Number()` reads one: digits, an optional
point with optional fraction digits (at least one digit on one side of the
point), and an optional exponent.  The whole input must be consumed. -/
def parseDecimalLit (cs : List Char) : Option ℚ :=
  let ip := cs.span Char.isDigit
  match ip.2 with
  | '.' :: r2 =>
    let fp := r2.span Char.isDigit
    if ip.1 = [] ∧ fp.1 = [] then none
    else
      (parseExpPart fp.2).map fun e =>
        ((natOfDigits ip.1 : ℚ) + (natOfDigits fp.1 : ℚ) / (10 : ℚ) ^ fp.1.length)
          * (10 : ℚ) ^ e
  | r =>
    if ip.1 = [] then none
    else (parseExpPart r).map fun e => (natOfDigits ip.1 : ℚ) * (10 : ℚ) ^ e

/-- Value of a hexadecimal digit character. -/
def hexVal (c : Char) : Nat :=
  if c.isDigit then digitVal c
  else if 'a' ≤ c ∧ c ≤ 'f' then c.toNat - 87
  else c.toNat - 55

def isHexDigit (c : Char) : Bool :=
  c.isDigit || ('a' ≤ c && c ≤ 'f') || ('A' ≤ c && c ≤ 'F')

def isOctDigit (c : Char) : Bool := '0' ≤ c && c ≤ '7'

def isBinDigit (c : Char) : Bool := c = '0' || c = '1'

/-- The value of a non-decimal integer literal body (after `0x`/`0o`/`0b`):
all remaining characters must be digits of the base, and there must be at
least one. -/
def parseRadix (base : Nat) (ok : Char → Bool) (ds : List Char) : JsNum :=
  if ds ≠ [] ∧ ds.all ok then
    .finite ((ds.foldl (fun n c => n * base + hexVal c) 0 : Nat) : ℚ)
  else .nan

/-- The part after an optional sign: `Infinity` or a decimal literal.
(`Number()` allows a sign only on these, not on `0x…` forms.) -/
def signedNumPart (neg : Bool) (cs : List Char) : JsNum :=
  if cs = "Infinity".data then (if neg then .negInf else .posInf)
  else
    match parseDecimalLit cs with
    | some q => .finite (if neg then -q else q)
    | none => .nan

/-- JavaScript `Number(string)`: trim; empty means 0; otherwise a signed
decimal / `Infinity` literal or an unsigned `0x`/`0o`/`0b` literal, with the
whole input consumed; anything else is NaN. -/
def jsStringToNumber (s : String) : JsNum :=
  match jsTrimList s.data with
  | [] => .finite 0
  | '+' :: r => signedNumPart false r
  | '-' :: r => signedNumPart true r
  | '0' :: 'x' :: r => parseRadix 16 isHexDigit r
  | '0' :: 'X' :: r => parseRadix 16 isHexDigit r
  | '0' :: 'o' :: r => parseRadix 8 isOctDigit r
  | '0' :: 'O' :: r => parseRadix 8 isOctDigit r
  | '0' :: 'b' :: r => parseRadix 2 isBinDigit r
  | '0' :: 'B' :: r => parseRadix 2 isBinDigit r
  | cs => signedNumPart false cs

/-- The zero-width lookahead `(?=\d{3}(\D|$))` of the thousands-separator
regexps: three decimal digits followed by a non-digit or the end. -/
def thousandsLookahead : List Char → Bool
  | d1 :: d2 :: d3 :: rest =>
    d1.isDigit && d2.isDigit && d3.isDigit &&
      (match rest with
       | [] => true
       | c :: _ => !c.isDigit)
  | _ => false

/-- The replace `.replace(/sep(?=\d{3}(\D|$))/g, '')`: delete every occurrence of `sep`
whose lookahead matches.  The lookahead consumes nothing, so a global
replace inspects the original tail at each position; this left-to-right
scan is exactly that. -/
def stripSeps (sep : Char) : List Char → List Char
  | [] => []
  | c :: rest =>
    if c = sep ∧ thousandsLookahead rest then stripSeps sep rest
    else c :: stripSeps sep rest

/-- The replace `.replace(/,(\d{1,2})$/g, '.$1')` on the reversed character list: a
trailing comma followed by one or two digits becomes a decimal point.  (At
most one position can match, so the global flag changes nothing.) -/
def decimalCommaRev : List Char → List Char
  | d2 :: d1 :: c :: rest =>
    if d2.isDigit && d1.isDigit && c = ',' then d2 :: d1 :: '.' :: rest
    else if d2.isDigit && d1 = ',' then d2 :: '.' :: rest
    else d2 :: d1 :: c :: rest
  | d :: c :: rest =>
    if d.isDigit && c = ',' then d :: '.' :: rest
    else d :: c :: rest
  | l => l

def applyDecimalComma (cs : List Char) : List Char :=
  (decimalCommaRev cs.reverse).reverse

/-- The separator-normalisation chain of `numberLike`'s string branch:
remove whitespace, drop comma thousands separators, drop period thousands
separators, rewrite a trailing decimal comma. -/
def normalizeNumString (t : List Char) : List Char :=
  applyDecimalComma
    (stripSeps '.' (stripSeps ',' (t.filter (fun c => !(isJsWhitespace c)))))

/-- The string branch of the `numberLike` transform (main.js lines
1374-1382): trim; an empty trimmed string is `undefined`; otherwise
normalise separators, parse with `Number`, and keep the value only when it
is finite. -/
def numberLikeStr (s : String) : Option JsNum :=
  let t := jsTrimList s.data
  if t = [] then none
  else
    match jsStringToNumber (String.mk (normalizeNumString t)) with
    | .finite q => some (.finite q)
    | _ => none

/-- The `numberLike` zod schema (main.js lines 1372-1383):
`z.union([z.number(), z.string()]).transform(...)`.  Outer `none` is a
validation error (the union accepted neither branch — NaN is rejected by
`z.number()`, whose parsed type for NaN is "nan"); `some v` is the
transform's output, where the inner `Option` is `number | undefined`. -/
def numberLike : JsValue → Option (Option JsNum)
  | .vnum .nan => none
  | .vnum n => some (some n)
  | .vstr s => some (numberLikeStr s)
  | _ => none

/-- Smallest decimal scale for printing: the multiplicity of prime `p` in
`n`, computed with explicit fuel. -/
def multiplicity (p : Nat) : Nat → Nat → Nat
  | 0, _ => 0
  | fuel + 1, n => if 1 < p ∧ n ≠ 0 ∧ n % p = 0 then multiplicity p fuel (n / p) + 1 else 0

/-- Left-pad the decimal rendering of `n` with zeros to `k` digits. -/
def padDigits (k n : Nat) : String :=
  let s := toString n
  String.mk (List.replicate (k - s.length) '0') ++ s

/-- Exact shortest decimal rendering of a non-negative rational whose
denominator divides a power of ten.  JavaScript's `String(number)` prints
the shortest round-tripping decimal, which agrees with the exact decimal on
every decimal-representable value (the only finite values the JSON pipeline
produces); the final branch is a defensive fallback for rationals with no
finite decimal expansion, which cannot arise from `Number()` or JSON. -/
def ratDecStringNonneg (q : ℚ) : String :=
  let den := q.den
  let k := max (multiplicity 2 den den) (multiplicity 5 den den)
  if den ∣ 10 ^ k then
    let scaled := q.num.toNat * (10 ^ k / den)
    if k = 0 then toString scaled
    else toString (scaled / 10 ^ k) ++ "." ++ padDigits k (scaled % 10 ^ k)
  else toString q.num.toNat ++ "/" ++ toString den

/-- JavaScript `String(number)` (within the non-exponential range used
here). -/
def jsNumToString : JsNum → String
  | .nan => "NaN"
  | .posInf => "Infinity"
  | .negInf => "-Infinity"
  | .finite q => if q < 0 then "-" ++ ratDecStringNonneg (-q) else ratDecStringNonneg q

/-- The `optionalString` zod schema as an optional object field (main.js
line 1385): `z.union([z.string(), z.number()]).transform((v) => (v ===
undefined || v === null ? undefined : String(v))).optional()`.  A missing or
`undefined` input is absent via `.optional()`; `null` never reaches the
transform because the union rejects it (the transform's null branch is
unreachable); a string passes through `String` unchanged; NaN is rejected
by `z.number()`. -/
def optionalString : Option JsValue → Option (Option String)
  | none => some none
  | some .vundef => some none
  | some (.vstr s) => some (some s)
  | some (.vnum .nan) => none
  | some (.vnum n) => some (some (jsNumToString n))
  | some _ => none

/-! ### Table hints (`src/services/extractor/deriveProductTableHints.js`) -/

/-- One cell of a detected layout table (Azure Document Intelligence):
row/column indices and optional text content (`c.content || ''` treats a
missing content as empty). -/
structure LayoutCell where
  rowIndex : Int
  columnIndex : Int
  content : Option String
deriving DecidableEq

/-- A detected table: a flat cell list (`table.cells`; a missing list is the
empty list). -/
structure LayoutTable where
  cells : List LayoutCell
deriving DecidableEq

/-- The layout input: `layout.tables || []`. -/
structure Layout where
  tables : List LayoutTable
deriving DecidableEq

/-- One emitted hint: `{ tableIndex, headers, score }`. -/
structure TableHint where
  tableIndex : Nat
  headers : List String
  score : Nat
deriving DecidableEq

/-- The deriver's result: `{ glossary, hints }`. -/
structure HintResult where
  glossary : String
  hints : List TableHint
deriving DecidableEq

/-- The character class `[a-z0-9%]` kept by `norm`'s first replace. -/
def keepChar (c : Char) : Bool :=
  ('a' ≤ c && c ≤ 'z') || ('0' ≤ c && c ≤ '9') || c == '%'

/-- JS `text.toLowerCase()` as a character list (the headers here are ASCII;
`Char.toLower` is the Basic-Latin case mapping). -/
def lowered (s : String) : List Char :=
  s.data.map Char.toLower

/-- Collapse runs of spaces and trim, by collecting the maximal space-free
words: this is `.replace(/\s+/g, ' ').trim()` on a string whose only
whitespace character is `' '` (which holds after the first replace mapped
every non-kept character, whitespace included, to a space). -/
def wordsAux : List Char → List Char → List (List Char)
  | acc, [] => if acc = [] then [] else [acc.reverse]
  | acc, c :: cs =>
    if c = ' ' then
      (if acc = [] then wordsAux [] cs else acc.reverse :: wordsAux [] cs)
    else wordsAux (c :: acc) cs

/-- The function `norm` (deriveProductTableHints.js lines 10-16): lowercase, replace
every character outside `[a-z0-9%]` with a space, collapse whitespace,
trim. -/
def norm (text : String) : String :=
  String.intercalate " "
    ((wordsAux [] ((lowered text).map (fun c => if keepChar c then c else ' '))).map String.mk)

/-- The spec's description of header normalisation, stated independently:
the maximal runs of kept characters of the lowercased text, joined by
single spaces (stripping every other character and collapsing the resulting
whitespace). -/
def specRunsAux : List Char → List Char → List (List Char)
  | acc, [] => if acc = [] then [] else [acc.reverse]
  | acc, c :: cs =>
    if keepChar c then specRunsAux (c :: acc) cs
    else (if acc = [] then specRunsAux [] cs else acc.reverse :: specRunsAux [] cs)

/-- Header normalisation as the spec sentence reads, for comparison with
`norm`. -/
def normSpec (text : String) : String :=
  String.intercalate " " ((specRunsAux [] (lowered text)).map String.mk)

/-- The constant `HEADER_PATTERNS`: the eight fixed keyword categories. -/
def HEADER_PATTERNS : List (List String) :=
  [["code", "sku", "item", "product", "reference"],
   ["desc", "description", "details", "service", "charge"],
   ["qty", "quantity", "qte", "units"],
   ["price", "unit price", "unit", "rate", "cost"],
   ["amount", "total", "sum", "subtotal", "value", "fee"],
   ["tax", "vat", "tva", "duty", "tariff"],
   ["shipping", "freight", "delivery", "transport"],
   ["discount", "rebate", "reduction", "credit"]]

/-- JS `h.includes(g)`: `g` occurs as a contiguous substring of `h`. -/
def includesAux (hs gs : List Char) : Bool :=
  match hs with
  | [] => gs.isEmpty
  | _ :: t => gs.isPrefixOf hs || includesAux t gs

def strIncludes (h g : String) : Bool :=
  includesAux h.data g.data

/-- The scoring loop of `scoreHeader` applied to already-normalised
headers: one point per category some header includes a keyword of. -/
def scoreNormalized (hNorm : List String) : Nat :=
  HEADER_PATTERNS.foldl
    (fun score group =>
      if hNorm.any (fun h => group.any (fun g => strIncludes h g)) then score + 1 else score)
    0

/-- The function `scoreHeader` (lines 32-39): normalise each header with `norm`, then
count matched categories. -/
def scoreHeader (headers : List String) : Nat :=
  scoreNormalized (headers.map norm)

/-- Insertion step of a stable ascending sort by `columnIndex`. -/
def insertByCol (c : LayoutCell) : List LayoutCell → List LayoutCell
  | [] => [c]
  | d :: ds =>
    if c.columnIndex ≤ d.columnIndex then c :: d :: ds else d :: insertByCol c ds

/-- The sort `headerCells.sort((a, b) => a.columnIndex - b.columnIndex)`:
`Array.prototype.sort` is stable, and a stable sort's output is unique, so
this stable insertion sort computes it. -/
def sortByCol : List LayoutCell → List LayoutCell
  | [] => []
  | c :: cs => insertByCol c (sortByCol cs)

/-- The filter `table.cells.filter(c => c.rowIndex === 0)`. -/
def headerCellsOf (t : LayoutTable) : List LayoutCell :=
  t.cells.filter (fun c => c.rowIndex == 0)

/-- A table has a header row when at least one of its cells has row index 0. -/
def hasHeaderRow (t : LayoutTable) : Bool :=
  !(headerCellsOf t).isEmpty

/-- The ordered header texts of a table: row-0 cells sorted by column index,
missing content becoming the empty string. -/
def headersOf (t : LayoutTable) : List String :=
  (sortByCol (headerCellsOf t)).map (fun c => c.content.getD "")

/-- The glossary line pushed per included table:
`` `Table ${idx + 1} with headers: ${headers.join(', ')}` ``. -/
def tableEntry (idx : Nat) (headers : List String) : String :=
  "Table " ++ toString (idx + 1) ++ " with headers: " ++ String.intercalate ", " headers

/-- The `tables.forEach((table, idx) => ...)` loop (lines 51-68), with the
two accumulator arrays `glossaryParts` and `hints` returned as the pair:
skip a table with no (or an empty) cell list, skip a table with no row-0
cell, otherwise push one glossary entry and one hint. -/
def deriveAux : Nat → List LayoutTable → List String × List TableHint
  | _, [] => ([], [])
  | idx, t :: ts =>
    let rest := deriveAux (idx + 1) ts
    if t.cells.isEmpty then rest
    else
      let headerCells := headerCellsOf t
      if headerCells.isEmpty then rest
      else
        let headers := (sortByCol headerCells).map (fun c => c.content.getD "")
        let score := scoreHeader headers
        (tableEntry idx headers :: rest.1,
         { tableIndex := idx, headers := headers, score := score } :: rest.2)

/-- The function `deriveProductTableHints` (lines 46-74): run the loop over
`layout.tables` and join the glossary parts with `' \n '`. -/
def deriveProductTableHints (layout : Layout) : HintResult :=
  let r := deriveAux 0 layout.tables
  { glossary := String.intercalate " \n " r.1, hints := r.2 }

/-- The indices (from a running offset) of the tables that have a header
row: the tables the loop emits a hint for. -/
def headerRowIndices : Nat → List LayoutTable → List Nat
  | _, [] => []
  | i, t :: ts =>
    if hasHeaderRow t then i :: headerRowIndices (i + 1) ts
    else headerRowIndices (i + 1) ts

/-! ### Client status polling (`src/public/js/main.js` lines 8-15, 423-497) -/

/-- The constant `config.pollInterval`: 8000 ms. -/
def pollInterval : Nat := 8000

/-- The constant `config.maxPollAttempts`: 45. -/
def maxPollAttempts : Nat := 45

/-- The statuses on which the loop stops polling. -/
def finalStatuses : List String :=
  ["COMPLETED", "ERROR", "SPLIT_PROPOSED", "DATA_VALIDATION_PENDING"]

def isFinalStatus (st : String) : Bool :=
  finalStatuses.contains st

/-- What one status request can yield: a response with its `success` flag
and status, or a thrown network error. -/
inductive PollResponse where
  | ok (success : Bool) (status : String)
  | failed
deriving DecidableEq

/-- How a polling run ends.  `silentStop` models the code path where
`response.success` is false: no branch runs, so the loop simply never
reschedules. -/
inductive PollOutcome where
  | finalObserved (status : String)
  | timedOut
  | requestError
  | silentStop
deriving DecidableEq

/-- A finished polling run: its outcome, how many status requests it made,
and the `setTimeout` delay of each rescheduled poll. -/
structure PollRun where
  outcome : PollOutcome
  requests : Nat
  delays : List Nat
deriving DecidableEq

/-- The `poll` closure of `startBatchStatusPolling`, reading request `i`
from the response stream with `attempts` re-polls already counted: stop on
a thrown error, on a non-success response (silently), or on a final
status; otherwise reschedule after `pollInterval` while
`attempts < maxA`, else time out. -/
def pollAux (maxA : Nat) (stream : Nat → PollResponse) (i attempts : Nat) : PollRun :=
  match stream i with
  | .failed => { outcome := .requestError, requests := 1, delays := [] }
  | .ok false _ => { outcome := .silentStop, requests := 1, delays := [] }
  | .ok true st =>
    if isFinalStatus st then { outcome := .finalObserved st, requests := 1, delays := [] }
    else if h : attempts < maxA then
      let r := pollAux maxA stream (i + 1) (attempts + 1)
      { outcome := r.outcome, requests := r.requests + 1, delays := pollInterval :: r.delays }
    else { outcome := .timedOut, requests := 1, delays := [] }
termination_by maxA - attempts
decreasing_by omega

/-- The entry `startBatchStatusPolling(batchId, onStatusChange, maxAttempts = null)`:
do nothing when auto-refresh is disabled; otherwise run the loop with
`maxAttempts || config.maxPollAttempts` (JavaScript `||`: `null` and `0`
both fall back to the configured 45). -/
def startBatchStatusPolling (autoRefreshEnabled : Bool) (maxAttempts : Option Nat)
    (stream : Nat → PollResponse) : Option PollRun :=
  if autoRefreshEnabled then
    let maxA :=
      match maxAttempts with
      | none => maxPollAttempts
      | some 0 => maxPollAttempts
      | some k => k
    some (pollAux maxA stream 0 0)
  else none

/-! ### API route dispatch under the SPLIT_ONLY toggle (api routes file) -/

/-- The extraction- and validation-related API routes. -/
inductive ApiRoute where
  | extractData
  | extractedData
  | extractInvoice
  | extractLayout
  | extractPdf
  | validateData
  | validationSummary
  | exportData
  | testExtract
deriving DecidableEq

/-- What a route's handler chain does with a request: answer with the 410
`archived_feature` response (`sendArchivedApi(res, feature)`), or run the
named controller / service handler. -/
inductive RouteOutcome where
  | archived (feature : String)
  | handler (action : String)
deriving DecidableEq

/-- The toggle test `process.env.SPLIT_ONLY === '1' || process.env.SPLIT_ONLY === 'true'`. -/
def splitOnlyEnabled (env : Option String) : Bool :=
  env == some "1" || env == some "true"

def isArchivedOutcome : RouteOutcome → Bool
  | .archived _ => true
  | .handler _ => false

/-- The dispatch each route performs, transcribed from the route
definitions: `extract-data` and `extracted-data` check the toggle;
`extract-invoice/:invoiceIndex`, `/extract` and `/extract-pdf` call their
handlers unconditionally; `validate-data`, `validation-summary`, `export`
and `test-extract` answer archived unconditionally. -/
def routeDispatch (env : Option String) : ApiRoute → RouteOutcome
  | .extractData =>
    if splitOnlyEnabled env then .archived "data extraction"
    else .handler "processingController.extractInvoiceData"
  | .extractedData =>
    if splitOnlyEnabled env then .archived "extracted data retrieval"
    else .handler "processingController.getExtractedData"
  | .extractInvoice => .handler "processingController.extractSingleInvoice"
  | .extractLayout => .handler "extractFromLayout"
  | .extractPdf => .handler "getLayoutFromPDF;extractFromLayout"
  | .validateData => .archived "data validation"
  | .validationSummary => .archived "validation summary"
  | .exportData => .archived "data export"
  | .testExtract => .archived "test extraction"

/-! ### The line-item object schema (`InvoiceExtractSchema.lineItems`,
main.js lines 1388-1405) -/

/-- A raw line-item record as the schema receives it: each known key either
absent or holding a value (zod strips unknown keys, so they cannot affect
validation). -/
structure RawLineItem where
  productCode : Option JsValue := none
  description : Option JsValue := none
  hsCode : Option JsValue := none
  originCountry : Option JsValue := none
  farePreference : Option JsValue := none
  totalAmount : Option JsValue := none
  netWeight : Option JsValue := none
  grossWeight : Option JsValue := none
  quantity : Option JsValue := none
  UOM : Option JsValue := none
  type : Option JsValue := none
  rate : Option JsValue := none
  baseAmount : Option JsValue := none
  currency : Option JsValue := none
  category : Option JsValue := none
deriving DecidableEq

/-- A validated line item. -/
structure LineItem where
  productCode : Option String
  description : Option String
  hsCode : Option String
  originCountry : Option String
  farePreference : Option String
  totalAmount : Option JsNum
  netWeight : Option JsNum
  grossWeight : Option JsNum
  quantity : Option JsNum
  UOM : Option String
  type : Option String
  rate : Option JsNum
  baseAmount : Option JsNum
  currency : Option String
  category : Option String
deriving DecidableEq

/-- The schema `z.string().optional()` as an object field. -/
def stringField : Option JsValue → Option (Option String)
  | none => some none
  | some .vundef => some none
  | some (.vstr s) => some (some s)
  | some _ => none

/-- The schema `numberLike.optional()` as an object field. -/
def numberLikeField : Option JsValue → Option (Option JsNum)
  | none => some none
  | some .vundef => some none
  | some v => numberLike v

/-- Validation of one raw line item against the field schemas, in the
source's key order; the object is accepted exactly when every field is. -/
def parseLineItem (r : RawLineItem) : Option LineItem :=
  (stringField r.productCode).bind fun productCode =>
  (stringField r.description).bind fun description =>
  (stringField r.hsCode).bind fun hsCode =>
  (stringField r.originCountry).bind fun originCountry =>
  (stringField r.farePreference).bind fun farePreference =>
  (numberLikeField r.totalAmount).bind fun totalAmount =>
  (numberLikeField r.netWeight).bind fun netWeight =>
  (numberLikeField r.grossWeight).bind fun grossWeight =>
  (numberLikeField r.quantity).bind fun quantity =>
  (stringField r.UOM).bind fun uom =>
  (stringField r.type).bind fun ty =>
  (numberLikeField r.rate).bind fun rate =>
  (numberLikeField r.baseAmount).bind fun baseAmount =>
  (stringField r.currency).bind fun currency =>
  (stringField r.category).bind fun category =>
  some { productCode := productCode, description := description, hsCode := hsCode,
         originCountry := originCountry, farePreference := farePreference,
         totalAmount := totalAmount, netWeight := netWeight, grossWeight := grossWeight,
         quantity := quantity, UOM := uom, type := ty, rate := rate,
         baseAmount := baseAmount, currency := currency, category := category }

/-- A raw record with its `type` key cleared, for saying two records agree
outside `type`. -/
def eraseRawType (r : RawLineItem) : RawLineItem :=
  { r with type := none }

/-- A validated item with its `type` field cleared, for comparing outputs
outside `type`. -/
def eraseItemType (o : LineItem) : LineItem :=
  { o with type := none }

/-- Concrete raw record whose `type` is the string `"product"`, every other
key absent. -/
def rawItemTypeStr : RawLineItem :=
  { type := some (.vstr "product") }

/-- The same record except `type` holds the number `0`. -/
def rawItemTypeNum : RawLineItem :=
  { type := some (.vnum (.finite 0)) }

/-- The same record except `type` holds the string `"tax"` (for the
amended theorem's witness). -/
def rawItemTypeTax : RawLineItem :=
  { type := some (.vstr "tax") }

/-! ## Theorems -/

/-- C1: The numberLike coercion satisfies the spec's test vectors:
`numberLike("1,234.56") = 1234.56`, `numberLike("1.234,56") = 1234.56`,
`numberLike("") = absent`, `numberLike("abc") = absent`, under the stated
string algorithm (trim, drop internal whitespace, drop thousands
separators, rewrite a trailing decimal comma, parse as a number). -/
theorem numberLike_test_vectors :
    numberLike (.vstr "1,234.56") = some (some (.finite (123456 / 100))) ∧
    numberLike (.vstr "1.234,56") = some (some (.finite (123456 / 100))) ∧
    numberLike (.vstr "") = some none ∧
    numberLike (.vstr "abc") = some none :=
  ⟨by with_unfolding_all rfl, by with_unfolding_all rfl, rfl, rfl⟩

/-- C5: For every string input, an empty-after-trimming string and a
non-finite parse both yield the absent value (never zero), and a zero
result can only come from a genuine parse of zero on a nonempty trimmed
string — so absence and an extracted zero stay distinguishable. -/
theorem numberLike_absent_on_failure (s : String) :
    (jsTrimList s.data = [] → numberLikeStr s = none) ∧
    ((jsStringToNumber (String.mk (normalizeNumString (jsTrimList s.data)))).isFinite = false →
      numberLikeStr s = none) ∧
    (numberLikeStr s = some (JsNum.finite 0) →
      jsTrimList s.data ≠ [] ∧
      jsStringToNumber (String.mk (normalizeNumString (jsTrimList s.data))) = JsNum.finite 0) := by
  refine ⟨fun h => by simp [numberLikeStr, h], ?_, ?_⟩
  · intro h
    by_cases ht : jsTrimList s.data = []
    · simp [numberLikeStr, ht]
    · cases hn : jsStringToNumber (String.mk (normalizeNumString (jsTrimList s.data))) with
      | finite q => rw [hn] at h; simp [JsNum.isFinite] at h
      | nan => simp [numberLikeStr, ht, hn]
      | posInf => simp [numberLikeStr, ht, hn]
      | negInf => simp [numberLikeStr, ht, hn]
  · intro h
    by_cases ht : jsTrimList s.data = []
    · simp [numberLikeStr, ht] at h
    · refine ⟨ht, ?_⟩
      cases hn : jsStringToNumber (String.mk (normalizeNumString (jsTrimList s.data))) with
      | finite q =>
        simp [numberLikeStr, ht, hn] at h
        rw [h]
      | nan => simp [numberLikeStr, ht, hn] at h
      | posInf => simp [numberLikeStr, ht, hn] at h
      | negInf => simp [numberLikeStr, ht, hn] at h

/-- C5 witness: the vector `"abc"` fails to parse and is mapped to the
absent value. -/
theorem numberLike_absent_on_failure_witness :
    (jsStringToNumber (String.mk (normalizeNumString (jsTrimList "abc".data)))).isFinite = false ∧
    numberLikeStr "abc" = none :=
  ⟨rfl, (numberLike_absent_on_failure "abc").2.1 rfl⟩

/-- C9 (corrected): numberLike is the identity on every native-number
input except NaN: zero and both infinities pass through unchanged (no
finiteness check on the number branch), while a NaN input is rejected by
the union's `z.number()` option as a validation error; only string inputs
go through the finiteness check, so the string "Infinity" maps to
absence. -/
theorem numberLike_number_inputs :
    numberLike (JsValue.vnum JsNum.nan) = none ∧
    (∀ n : JsNum, n ≠ JsNum.nan → numberLike (JsValue.vnum n) = some (some n)) ∧
    numberLike (JsValue.vnum JsNum.posInf) = some (some JsNum.posInf) ∧
    numberLike (JsValue.vnum JsNum.negInf) = some (some JsNum.negInf) ∧
    numberLike (JsValue.vnum (JsNum.finite 0)) = some (some (JsNum.finite 0)) ∧
    numberLike (JsValue.vstr "Infinity") = some none := by
  refine ⟨rfl, ?_, rfl, rfl, rfl, rfl⟩
  intro n hn
  cases n with
  | finite q => rfl
  | nan => exact absurd rfl hn
  | posInf => rfl
  | negInf => rfl

/-- C9 counterexample: a NaN number input is not returned unchanged — the
union rejects it, so the schema reports a validation error. -/
theorem numberLike_nan_not_identity :
    numberLike (JsValue.vnum JsNum.nan) = none ∧
    numberLike (JsValue.vnum JsNum.nan) ≠ some (some JsNum.nan) :=
  ⟨rfl, by decide⟩

/-- C4 (corrected): a missing (absent or undefined) input stays absent, a
present string passes through `String` unchanged, a present non-NaN number
is stringified, and `null` is rejected by the union. -/
theorem optionalString_semantics :
    optionalString none = some none ∧
    optionalString (some JsValue.vundef) = some none ∧
    (∀ s, optionalString (some (JsValue.vstr s)) = some (some s)) ∧
    (∀ n : JsNum, n ≠ JsNum.nan →
      optionalString (some (JsValue.vnum n)) = some (some (jsNumToString n))) ∧
    optionalString (some JsValue.vnull) = none := by
  refine ⟨rfl, rfl, fun s => rfl, ?_, rfl⟩
  intro n hn
  cases n with
  | finite q => rfl
  | nan => exact absurd rfl hn
  | posInf => rfl
  | negInf => rfl

/-- C4 counterexample: the empty string is a present value to
optionalString — it is stringified to a present empty string, not mapped
to absence. -/
theorem optionalString_empty_string_present :
    optionalString (some (JsValue.vstr "")) = some (some "") ∧
    optionalString (some (JsValue.vstr "")) ≠ some none :=
  ⟨rfl, by decide⟩

/-- C3 counterexample: with SPLIT_ONLY=1 enabled, the
`extract-invoice/:invoiceIndex` route still dispatches to its extraction
handler; it does not answer with the archived_feature response. -/
theorem extract_invoice_route_not_archived :
    splitOnlyEnabled (some "1") = true ∧
    routeDispatch (some "1") ApiRoute.extractInvoice
      = RouteOutcome.handler "processingController.extractSingleInvoice" ∧
    isArchivedOutcome (routeDispatch (some "1") ApiRoute.extractInvoice) = false :=
  ⟨rfl, rfl, rfl⟩

/-- C3 (corrected): while SPLIT_ONLY is enabled, the `extract-data` and
`extracted-data` routes answer archived_feature without reaching their
handlers, and `validate-data`, `validation-summary`, `export` and
`test-extract` answer archived unconditionally — but the
`extract-invoice/:invoiceIndex`, `/extract` and `/extract-pdf` routes
dispatch to their extraction handlers regardless of the toggle. -/
theorem split_only_dispatch (env : Option String) (h : splitOnlyEnabled env = true) :
    routeDispatch env .extractData = .archived "data extraction" ∧
    routeDispatch env .extractedData = .archived "extracted data retrieval" ∧
    routeDispatch env .validateData = .archived "data validation" ∧
    routeDispatch env .validationSummary = .archived "validation summary" ∧
    routeDispatch env .exportData = .archived "data export" ∧
    routeDispatch env .testExtract = .archived "test extraction" ∧
    routeDispatch env .extractInvoice = .handler "processingController.extractSingleInvoice" ∧
    routeDispatch env .extractLayout = .handler "extractFromLayout" ∧
    routeDispatch env .extractPdf = .handler "getLayoutFromPDF;extractFromLayout" := by
  refine ⟨?_, ?_, rfl, rfl, rfl, rfl, rfl, rfl, rfl⟩ <;> simp [routeDispatch, h]

/-- C3 witness: the toggle value "true" also archives the guarded
extract-data route. -/
theorem split_only_dispatch_witness :
    splitOnlyEnabled (some "true") = true ∧
    routeDispatch (some "true") ApiRoute.extractData = RouteOutcome.archived "data extraction" :=
  ⟨rfl, (split_only_dispatch (some "true") rfl).1⟩

/-- Replacing every non-kept character by a space and then collecting the
space-free words is the same as collecting the maximal runs of kept
characters directly. -/
theorem wordsAux_spec (ls : List Char) :
    ∀ acc, wordsAux acc (ls.map (fun c => if keepChar c then c else ' ')) = specRunsAux acc ls := by
  induction ls with
  | nil => intro acc; rfl
  | cons c cs ih =>
    intro acc
    by_cases hk : keepChar c = true
    · have hc : ¬(c = ' ') := by
        intro h
        rw [h] at hk
        exact absurd hk (by decide)
      simp only [List.map_cons, hk, if_true, wordsAux, specRunsAux, hc, if_false]
      exact ih (c :: acc)
    · simp only [List.map_cons, hk, if_false, wordsAux, specRunsAux, if_pos rfl]
      by_cases ha : acc = [] <;> simp [ha, ih []]

/-- C6: the header-normalisation function is exactly the spec's
description (lowercase, strip every character outside letters / digits /
percent, collapse whitespace), and the keyword scoring operates on exactly
this normalised form. -/
theorem norm_matches_spec :
    (∀ text, norm text = normSpec text) ∧
    (∀ headers, scoreHeader headers = scoreNormalized (headers.map norm)) := by
  refine ⟨fun text => ?_, fun headers => rfl⟩
  unfold norm normSpec
  rw [wordsAux_spec]

/-- Inserting into a list permutes consing onto it. -/
theorem insertByCol_perm (c : LayoutCell) (l : List LayoutCell) :
    List.Perm (insertByCol c l) (c :: l) := by
  induction l with
  | nil => exact List.Perm.refl _
  | cons d ds ih =>
    by_cases h : c.columnIndex ≤ d.columnIndex
    · simp only [insertByCol, h, if_true]
      exact List.Perm.refl _
    · simp only [insertByCol, h, if_false]
      exact (ih.cons d).trans (List.Perm.swap c d ds)

/-- The stable column sort permutes its input. -/
theorem sortByCol_perm (l : List LayoutCell) : List.Perm (sortByCol l) l := by
  induction l with
  | nil => exact List.Perm.refl _
  | cons c cs ih => exact (insertByCol_perm c (sortByCol cs)).trans (ih.cons c)

/-- Insertion preserves sortedness by column index. -/
theorem insertByCol_pairwise (c : LayoutCell) (l : List LayoutCell)
    (hl : List.Pairwise (fun a b => a.columnIndex ≤ b.columnIndex) l) :
    List.Pairwise (fun a b => a.columnIndex ≤ b.columnIndex) (insertByCol c l) := by
  induction l with
  | nil => simp [insertByCol]
  | cons d ds ih =>
    rcases List.pairwise_cons.mp hl with ⟨hd, hds⟩
    by_cases h : c.columnIndex ≤ d.columnIndex
    · simp only [insertByCol, h, if_true]
      refine List.Pairwise.cons ?_ hl
      intro b hb
      rcases List.mem_cons.mp hb with hbd | hbds
      · rw [hbd]; exact h
      · exact le_trans h (hd b hbds)
    · simp only [insertByCol, h, if_false]
      refine List.Pairwise.cons ?_ (ih hds)
      intro b hb
      have hmem : b ∈ c :: ds := (insertByCol_perm c ds).mem_iff.mp hb
      rcases List.mem_cons.mp hmem with hbc | hbds
      · rw [hbc]; omega
      · exact hd b hbds

/-- The stable column sort is sorted by column index. -/
theorem sortByCol_pairwise (l : List LayoutCell) :
    List.Pairwise (fun a b => a.columnIndex ≤ b.columnIndex) (sortByCol l) := by
  induction l with
  | nil => simp [sortByCol]
  | cons c cs ih => exact insertByCol_pairwise c (sortByCol cs) ih

/-- One-step closed form of the deriver's loop: a table is emitted exactly
when it has a header row. -/
theorem deriveAux_cons (idx : Nat) (t : LayoutTable) (ts : List LayoutTable) :
    deriveAux idx (t :: ts) =
      if hasHeaderRow t then
        (tableEntry idx (headersOf t) :: (deriveAux (idx + 1) ts).1,
         { tableIndex := idx, headers := headersOf t,
           score := scoreHeader (headersOf t) } :: (deriveAux (idx + 1) ts).2)
      else deriveAux (idx + 1) ts := by
  simp only [deriveAux]
  by_cases h1 : t.cells.isEmpty = true
  · have hc : t.cells = [] := by
      cases hcl : t.cells with
      | nil => rfl
      | cons a l => rw [hcl] at h1; exact absurd h1 (by simp)
    have hh : hasHeaderRow t = false := by
      simp [hasHeaderRow, headerCellsOf, hc]
    simp [h1, hh]
  · by_cases h2 : (headerCellsOf t).isEmpty = true
    · have hh : hasHeaderRow t = false := by
        simp [hasHeaderRow, h2]
      simp [h1, h2, hh]
    · have hh : hasHeaderRow t = true := by
        simp [hasHeaderRow, h2]
      simp [h1, h2, hh, headersOf]

/-- The emitted hints are in bijection with the header-row tables: their
length is the count. -/
theorem deriveAux_snd_length (ts : List LayoutTable) :
    ∀ idx, (deriveAux idx ts).2.length = ts.countP hasHeaderRow := by
  induction ts with
  | nil => intro idx; rfl
  | cons t ts ih =>
    intro idx
    rw [deriveAux_cons, List.countP_cons]
    by_cases h : hasHeaderRow t = true <;> simp [h, ih]

/-- The emitted hint indices are exactly the header-row table indices, in
order. -/
theorem deriveAux_map_tableIndex (ts : List LayoutTable) :
    ∀ idx, (deriveAux idx ts).2.map TableHint.tableIndex = headerRowIndices idx ts := by
  induction ts with
  | nil => intro idx; rfl
  | cons t ts ih =>
    intro idx
    rw [deriveAux_cons]
    by_cases h : hasHeaderRow t = true <;> simp [headerRowIndices, h, ih]

/-- Each glossary part is the entry rendered from the matching hint, in the
same order. -/
theorem deriveAux_fst_map (ts : List LayoutTable) :
    ∀ idx, (deriveAux idx ts).1
      = (deriveAux idx ts).2.map (fun h => tableEntry h.tableIndex h.headers) := by
  induction ts with
  | nil => intro idx; rfl
  | cons t ts ih =>
    intro idx
    rw [deriveAux_cons]
    by_cases h : hasHeaderRow t = true <;> simp [h, ih]

/-- Every emitted hint points back at a header-row table at its index, and
carries that table's sorted headers and their score. -/
theorem deriveAux_mem (ts : List LayoutTable) :
    ∀ idx h, h ∈ (deriveAux idx ts).2 →
      idx ≤ h.tableIndex ∧
      ∃ t, ts[h.tableIndex - idx]? = some t ∧ hasHeaderRow t = true ∧
        h.headers = headersOf t ∧ h.score = scoreHeader h.headers := by
  induction ts with
  | nil => intro idx h hmem; simp [deriveAux] at hmem
  | cons t ts ih =>
    intro idx h hmem
    rw [deriveAux_cons] at hmem
    by_cases hh : hasHeaderRow t = true
    · rw [if_pos hh] at hmem
      rcases List.mem_cons.mp hmem with hnew | hrest
      · subst hnew
        refine ⟨le_refl idx, t, ?_, hh, rfl, rfl⟩
        have hz : idx - idx = 0 := by omega
        rw [hz, List.getElem?_cons_zero]
      · rcases ih (idx + 1) h hrest with ⟨hle, t', hget, hhdr, hhs, hsc⟩
        refine ⟨by omega, t', ?_, hhdr, hhs, hsc⟩
        have hs : h.tableIndex - idx = (h.tableIndex - (idx + 1)) + 1 := by omega
        rw [hs, List.getElem?_cons_succ]
        exact hget
    · rw [if_neg hh] at hmem
      rcases ih (idx + 1) h hmem with ⟨hle, t', hget, hhdr, hhs, hsc⟩
      refine ⟨by omega, t', ?_, hhdr, hhs, hsc⟩
      have hs : h.tableIndex - idx = (h.tableIndex - (idx + 1)) + 1 := by omega
      rw [hs, List.getElem?_cons_succ]
      exact hget

/-- The header-row indices are strictly increasing and bounded below by the
running offset. -/
theorem headerRowIndices_sorted (ts : List LayoutTable) :
    ∀ i, List.Chain' (· < ·) (headerRowIndices i ts) ∧
      ∀ j ∈ headerRowIndices i ts, i ≤ j := by
  induction ts with
  | nil => intro i; exact ⟨List.chain'_nil, by intro j hj; simp [headerRowIndices] at hj⟩
  | cons t ts ih =>
    intro i
    rcases ih (i + 1) with ⟨hchain, hlb⟩
    by_cases h : hasHeaderRow t = true
    · simp only [headerRowIndices, h, if_true]
      refine ⟨?_, ?_⟩
      · cases hL : headerRowIndices (i + 1) ts with
        | nil => simp
        | cons a L =>
          rw [hL] at hchain
          refine List.chain'_cons.mpr ⟨?_, hchain⟩
          have : i + 1 ≤ a := hlb a (by rw [hL]; exact List.mem_cons_self a L)
          omega
      · intro j hj
        rcases List.mem_cons.mp hj with hji | hjL
        · omega
        · have := hlb j hjL; omega
    · simp only [headerRowIndices, h, if_false]
      exact ⟨hchain, fun j hj => by have := hlb j hj; omega⟩

/-- C2: the deriver emits exactly one hint per table that has a header row
(a cell with row index 0) — the keyword score never filters a table out,
since the count and index list below hold for every layout whatever the
header texts — and a table with no header row is skipped entirely: it
contributes neither a hint nor a glossary part (the glossary is exactly the
rendering of the emitted hints). -/
theorem tableHints_one_per_header_table (layout : Layout) :
    (deriveProductTableHints layout).hints.length = layout.tables.countP hasHeaderRow ∧
    (deriveProductTableHints layout).hints.map TableHint.tableIndex
      = headerRowIndices 0 layout.tables ∧
    (deriveProductTableHints layout).glossary
      = String.intercalate " \n "
          ((deriveProductTableHints layout).hints.map (fun h => tableEntry h.tableIndex h.headers)) := by
  refine ⟨?_, ?_, ?_⟩
  · simp [deriveProductTableHints, deriveAux_snd_length]
  · simp [deriveProductTableHints, deriveAux_map_tableIndex]
  · simp [deriveProductTableHints, deriveAux_fst_map]

/-- C10: the deriver's output is internally aligned and ordered — hint
table indices strictly increase following the input order; each hint's
headers are exactly the row-0 cells of its table listed in ascending
columnIndex order with missing content as the empty string; and the
glossary is exactly one `Table i+1 with headers: …` entry per emitted hint,
in the same order. -/
theorem tableHints_aligned_output (layout : Layout) :
    List.Chain' (· < ·)
      ((deriveProductTableHints layout).hints.map TableHint.tableIndex) ∧
    (∀ h ∈ (deriveProductTableHints layout).hints,
      ∃ t, layout.tables[h.tableIndex]? = some t ∧ hasHeaderRow t = true ∧
        List.Perm (sortByCol (headerCellsOf t)) (headerCellsOf t) ∧
        List.Pairwise (fun a b => a.columnIndex ≤ b.columnIndex) (sortByCol (headerCellsOf t)) ∧
        h.headers = (sortByCol (headerCellsOf t)).map (fun c => c.content.getD "")) ∧
    (deriveProductTableHints layout).glossary
      = String.intercalate " \n "
          ((deriveProductTableHints layout).hints.map (fun h => tableEntry h.tableIndex h.headers))
      := by
  refine ⟨?_, ?_, by simp [deriveProductTableHints, deriveAux_fst_map]⟩
  · have hmap : (deriveProductTableHints layout).hints.map TableHint.tableIndex
        = headerRowIndices 0 layout.tables := by
      simp [deriveProductTableHints, deriveAux_map_tableIndex]
    rw [hmap]
    exact (headerRowIndices_sorted layout.tables 0).1
  · intro h hmem
    have hmem' : h ∈ (deriveAux 0 layout.tables).2 := hmem
    rcases deriveAux_mem layout.tables 0 h hmem' with ⟨-, t, hget, hhdr, hhs, -⟩
    rw [Nat.sub_zero] at hget
    exact ⟨t, hget, hhdr, sortByCol_perm _, sortByCol_pairwise _, hhs⟩

/-- Invariants of the polling loop, generalised over the fuel
`maxA - attempts`: the request count is bounded by the remaining attempt
budget plus one; each request beyond the first was rescheduled at the
constant poll interval; every response polled past was a non-final
success; and if the last polled response carries a final status, the run
ended by observing it. -/
theorem pollAux_props (maxA : Nat) (stream : Nat → PollResponse) :
    ∀ fuel i attempts, maxA - attempts ≤ fuel →
      (pollAux maxA stream i attempts).requests ≤ (maxA - attempts) + 1 ∧
      (pollAux maxA stream i attempts).requests
        = (pollAux maxA stream i attempts).delays.length + 1 ∧
      (∀ d ∈ (pollAux maxA stream i attempts).delays, d = pollInterval) ∧
      (∀ k st, k + 1 < (pollAux maxA stream i attempts).requests →
        stream (i + k) = .ok true st → isFinalStatus st = false) ∧
      (∀ st, stream (i + ((pollAux maxA stream i attempts).requests - 1)) = .ok true st →
        isFinalStatus st = true →
        (pollAux maxA stream i attempts).outcome = .finalObserved st) := by
  intro fuel
  induction fuel with
  | zero =>
    intro i attempts hf
    have hstop : ¬ attempts < maxA := by omega
    rw [pollAux]
    cases hs : stream i with
    | failed =>
      dsimp only
      refine ⟨by omega, rfl, by simp, by intro k st hk _; omega, ?_⟩
      intro st hst
      rw [Nat.add_zero, hs] at hst
      simp at hst
    | ok succ st =>
      cases succ with
      | false =>
        dsimp only
        refine ⟨by omega, rfl, by simp, by intro k st hk _; omega, ?_⟩
        intro st' hst
        rw [Nat.add_zero, hs] at hst
        simp at hst
      | true =>
        dsimp only
        by_cases hfin : isFinalStatus st = true
        · rw [if_pos hfin]
          dsimp only
          refine ⟨by omega, rfl, by simp, by intro k st' hk _; omega, ?_⟩
          intro st' hst _
          rw [Nat.add_zero, hs] at hst
          injection hst with h1 h2
          subst h2
          rfl
        · rw [if_neg hfin, dif_neg hstop]
          dsimp only
          refine ⟨by omega, rfl, by simp, by intro k st' hk _; omega, ?_⟩
          intro st' hst hfin'
          rw [Nat.add_zero, hs] at hst
          injection hst with h1 h2
          subst h2
          exact absurd hfin' hfin
  | succ n ih =>
    intro i attempts hf
    rw [pollAux]
    cases hs : stream i with
    | failed =>
      dsimp only
      refine ⟨by omega, rfl, by simp, by intro k st hk _; omega, ?_⟩
      intro st hst
      rw [Nat.add_zero, hs] at hst
      simp at hst
    | ok succ st =>
      cases succ with
      | false =>
        dsimp only
        refine ⟨by omega, rfl, by simp, by intro k st hk _; omega, ?_⟩
        intro st' hst
        rw [Nat.add_zero, hs] at hst
        simp at hst
      | true =>
        dsimp only
        by_cases hfin : isFinalStatus st = true
        · rw [if_pos hfin]
          dsimp only
          refine ⟨by omega, rfl, by simp, by intro k st' hk _; omega, ?_⟩
          intro st' hst _
          rw [Nat.add_zero, hs] at hst
          injection hst with h1 h2
          subst h2
          rfl
        · rw [if_neg hfin]
          by_cases hlt : attempts < maxA
          · rw [dif_pos hlt]
            have hrec := ih (i + 1) (attempts + 1) (by omega)
            rcases hrec with ⟨hA, hB, hC, hD, hE⟩
            dsimp only
            refine ⟨by omega, by simp [hB], ?_, ?_, ?_⟩
            · intro d hd
              rcases List.mem_cons.mp hd with hdp | hdr
              · exact hdp
              · exact hC d hdr
            · intro k st' hk hst
              cases k with
              | zero =>
                rw [Nat.add_zero, hs] at hst
                injection hst with h1 h2
                rw [← h2]
                cases hb : isFinalStatus st with
                | false => rfl
                | true => exact absurd hb hfin
              | succ k' =>
                have hk' : k' + 1 < (pollAux maxA stream (i + 1) (attempts + 1)).requests := by
                  omega
                have hidx : i + (k' + 1) = (i + 1) + k' := by omega
                rw [hidx] at hst
                exact hD k' st' hk' hst
            · intro st' hst hfin'
              have hidx : i + ((pollAux maxA stream (i + 1) (attempts + 1)).requests + 1 - 1)
                  = (i + 1) + ((pollAux maxA stream (i + 1) (attempts + 1)).requests - 1) := by
                omega
              rw [hidx] at hst
              exact hE st' hst hfin'
          · rw [dif_neg hlt]
            dsimp only
            refine ⟨by omega, rfl, by simp, by intro k st' hk _; omega, ?_⟩
            intro st' hst hfin'
            rw [Nat.add_zero, hs] at hst
            injection hst with h1 h2
            subst h2
            exact absurd hfin' hfin

/-- C7: the client polling loop always terminates: starting it with the
default attempt budget runs the loop with `maxPollAttempts = 45`; every run
issues at most `maxPollAttempts + 1` status requests, every re-poll beyond
the first request is scheduled at the constant `pollInterval`, polling
continues only past non-final statuses, and the loop stops at the first
observed status in {COMPLETED, ERROR, SPLIT_PROPOSED,
DATA_VALIDATION_PENDING}. -/
theorem polling_bounded_and_stops_on_final (stream : Nat → PollResponse) :
    startBatchStatusPolling true none stream = some (pollAux maxPollAttempts stream 0 0) ∧
    (pollAux maxPollAttempts stream 0 0).requests ≤ maxPollAttempts + 1 ∧
    (pollAux maxPollAttempts stream 0 0).requests
      = (pollAux maxPollAttempts stream 0 0).delays.length + 1 ∧
    (∀ d ∈ (pollAux maxPollAttempts stream 0 0).delays, d = pollInterval) ∧
    (∀ k st, k + 1 < (pollAux maxPollAttempts stream 0 0).requests →
      stream k = .ok true st → isFinalStatus st = false) ∧
    (∀ st, stream ((pollAux maxPollAttempts stream 0 0).requests - 1) = .ok true st →
      isFinalStatus st = true →
      (pollAux maxPollAttempts stream 0 0).outcome = .finalObserved st) := by
  have h := pollAux_props maxPollAttempts stream maxPollAttempts 0 0 (by omega)
  rcases h with ⟨hA, hB, hC, hD, hE⟩
  refine ⟨rfl, by simpa using hA, hB, hC, ?_, ?_⟩
  · intro k st hk hst
    exact hD k st hk (by simpa using hst)
  · intro st hst hfin
    exact hE st (by simpa using hst) hfin

/-- Binding a `some` computes: `(some a).bind f = f a`. -/
theorem some_bind_eq {α β : Type} (a : α) (f : α → Option β) :
    (some a).bind f = f a := rfl

/-- Two bind chains over the same head are equi-defined when their
continuations are. -/
theorem isSome_bind_congr {α β : Type} (o : Option α) {f g : α → Option β}
    (h : ∀ a, (f a).isSome = (g a).isSome) :
    (o.bind f).isSome = (o.bind g).isSome := by
  cases o with
  | none => rfl
  | some a => exact h a

/-- C8 (corrected): when both records' `type` values are themselves
accepted by the `type` field's own schema (`z.string().optional()`: absent,
undefined or a string), the discriminator never changes which fields are
permitted — two raw line items that differ only in `type` are accepted
together or rejected together, and their validated outputs agree outside
`type`. -/
theorem lineItem_type_field_isolation (r₁ r₂ : RawLineItem)
    (hfields : eraseRawType r₁ = eraseRawType r₂)
    (h₁ : (stringField r₁.type).isSome = true)
    (h₂ : (stringField r₂.type).isSome = true) :
    ((parseLineItem r₁).isSome = (parseLineItem r₂).isSome) ∧
    (∀ o₁ o₂, parseLineItem r₁ = some o₁ → parseLineItem r₂ = some o₂ →
      eraseItemType o₁ = eraseItemType o₂) := by
  obtain ⟨p1, d1, hc1, oc1, fp1, ta1, nw1, gw1, q1, u1, ty1, ra1, ba1, cu1, ca1⟩ := r₁
  obtain ⟨p2, d2, hc2, oc2, fp2, ta2, nw2, gw2, q2, u2, ty2, ra2, ba2, cu2, ca2⟩ := r₂
  simp only [eraseRawType, RawLineItem.mk.injEq] at hfields
  obtain ⟨e01, e02, e03, e04, e05, e06, e07, e08, e09, e10, -, e11, e12, e13, e14⟩ := hfields
  subst e01 e02 e03 e04 e05 e06 e07 e08 e09 e10 e11 e12 e13 e14
  obtain ⟨t₁, ht₁⟩ := Option.isSome_iff_exists.mp h₁
  obtain ⟨t₂, ht₂⟩ := Option.isSome_iff_exists.mp h₂
  constructor
  · unfold parseLineItem
    iterate 10 (apply isSome_bind_congr; intro _)
    rw [ht₁, ht₂, some_bind_eq, some_bind_eq]
    dsimp only
    iterate 4 (apply isSome_bind_congr; intro _)
    rfl
  · intro o₁ o₂ ho₁ ho₂
    unfold parseLineItem at ho₁ ho₂
    rw [Option.bind_eq_some] at ho₁
    obtain ⟨v01, hb01, ho₁⟩ := ho₁
    try dsimp only at ho₁
    rw [Option.bind_eq_some] at ho₁
    obtain ⟨v02, hb02, ho₁⟩ := ho₁
    try dsimp only at ho₁
    rw [Option.bind_eq_some] at ho₁
    obtain ⟨v03, hb03, ho₁⟩ := ho₁
    try dsimp only at ho₁
    rw [Option.bind_eq_some] at ho₁
    obtain ⟨v04, hb04, ho₁⟩ := ho₁
    try dsimp only at ho₁
    rw [Option.bind_eq_some] at ho₁
    obtain ⟨v05, hb05, ho₁⟩ := ho₁
    try dsimp only at ho₁
    rw [Option.bind_eq_some] at ho₁
    obtain ⟨v06, hb06, ho₁⟩ := ho₁
    try dsimp only at ho₁
    rw [Option.bind_eq_some] at ho₁
    obtain ⟨v07, hb07, ho₁⟩ := ho₁
    try dsimp only at ho₁
    rw [Option.bind_eq_some] at ho₁
    obtain ⟨v08, hb08, ho₁⟩ := ho₁
    try dsimp only at ho₁
    rw [Option.bind_eq_some] at ho₁
    obtain ⟨v09, hb09, ho₁⟩ := ho₁
    try dsimp only at ho₁
    rw [Option.bind_eq_some] at ho₁
    obtain ⟨v10, hb10, ho₁⟩ := ho₁
    try dsimp only at ho₁
    rw [Option.bind_eq_some] at ho₁
    obtain ⟨vty, hbty, ho₁⟩ := ho₁
    try dsimp only at ho₁
    rw [Option.bind_eq_some] at ho₁
    obtain ⟨v11, hb11, ho₁⟩ := ho₁
    try dsimp only at ho₁
    rw [Option.bind_eq_some] at ho₁
    obtain ⟨v12, hb12, ho₁⟩ := ho₁
    try dsimp only at ho₁
    rw [Option.bind_eq_some] at ho₁
    obtain ⟨v13, hb13, ho₁⟩ := ho₁
    try dsimp only at ho₁
    rw [Option.bind_eq_some] at ho₁
    obtain ⟨v14, hb14, ho₁⟩ := ho₁
    try dsimp only at ho₁
    rw [Option.bind_eq_some] at ho₂
    obtain ⟨w01, hc01, ho₂⟩ := ho₂
    try dsimp only at ho₂
    rw [Option.bind_eq_some] at ho₂
    obtain ⟨w02, hc02, ho₂⟩ := ho₂
    try dsimp only at ho₂
    rw [Option.bind_eq_some] at ho₂
    obtain ⟨w03, hc03, ho₂⟩ := ho₂
    try dsimp only at ho₂
    rw [Option.bind_eq_some] at ho₂
    obtain ⟨w04, hc04, ho₂⟩ := ho₂
    try dsimp only at ho₂
    rw [Option.bind_eq_some] at ho₂
    obtain ⟨w05, hc05, ho₂⟩ := ho₂
    try dsimp only at ho₂
    rw [Option.bind_eq_some] at ho₂
    obtain ⟨w06, hc06, ho₂⟩ := ho₂
    try dsimp only at ho₂
    rw [Option.bind_eq_some] at ho₂
    obtain ⟨w07, hc07, ho₂⟩ := ho₂
    try dsimp only at ho₂
    rw [Option.bind_eq_some] at ho₂
    obtain ⟨w08, hc08, ho₂⟩ := ho₂
    try dsimp only at ho₂
    rw [Option.bind_eq_some] at ho₂
    obtain ⟨w09, hc09, ho₂⟩ := ho₂
    try dsimp only at ho₂
    rw [Option.bind_eq_some] at ho₂
    obtain ⟨w10, hc10, ho₂⟩ := ho₂
    try dsimp only at ho₂
    rw [Option.bind_eq_some] at ho₂
    obtain ⟨wty, hcty, ho₂⟩ := ho₂
    try dsimp only at ho₂
    rw [Option.bind_eq_some] at ho₂
    obtain ⟨w11, hc11, ho₂⟩ := ho₂
    try dsimp only at ho₂
    rw [Option.bind_eq_some] at ho₂
    obtain ⟨w12, hc12, ho₂⟩ := ho₂
    try dsimp only at ho₂
    rw [Option.bind_eq_some] at ho₂
    obtain ⟨w13, hc13, ho₂⟩ := ho₂
    try dsimp only at ho₂
    rw [Option.bind_eq_some] at ho₂
    obtain ⟨w14, hc14, ho₂⟩ := ho₂
    try dsimp only at ho₂
    rw [hb01] at hc01
    injection hc01 with hv01
    subst hv01
    rw [hb02] at hc02
    injection hc02 with hv02
    subst hv02
    rw [hb03] at hc03
    injection hc03 with hv03
    subst hv03
    rw [hb04] at hc04
    injection hc04 with hv04
    subst hv04
    rw [hb05] at hc05
    injection hc05 with hv05
    subst hv05
    rw [hb06] at hc06
    injection hc06 with hv06
    subst hv06
    rw [hb07] at hc07
    injection hc07 with hv07
    subst hv07
    rw [hb08] at hc08
    injection hc08 with hv08
    subst hv08
    rw [hb09] at hc09
    injection hc09 with hv09
    subst hv09
    rw [hb10] at hc10
    injection hc10 with hv10
    subst hv10
    rw [hb11] at hc11
    injection hc11 with hv11
    subst hv11
    rw [hb12] at hc12
    injection hc12 with hv12
    subst hv12
    rw [hb13] at hc13
    injection hc13 with hv13
    subst hv13
    rw [hb14] at hc14
    injection hc14 with hv14
    subst hv14
    injection ho₁ with hr₁
    injection ho₂ with hr₂
    rw [← hr₁, ← hr₂]
    rfl

/-- C8 witness: two concrete records differing only in their string `type`
values are accepted together. -/
theorem lineItem_type_field_isolation_witness :
    eraseRawType rawItemTypeStr = eraseRawType rawItemTypeTax ∧
    (parseLineItem rawItemTypeStr).isSome = (parseLineItem rawItemTypeTax).isSome :=
  ⟨rfl, (lineItem_type_field_isolation rawItemTypeStr rawItemTypeTax rfl rfl rfl).1⟩

/-- C8 counterexample: two raw records differing only in the value of
`type` — the string "product" versus the number 0 — are not accepted
together: the number fails the `type` field's own `z.string()` check, so
validation accepts one and rejects the other. -/
theorem lineItem_type_nonstring_rejected :
    eraseRawType rawItemTypeStr = eraseRawType rawItemTypeNum ∧
    (parseLineItem rawItemTypeStr).isSome = true ∧
    (parseLineItem rawItemTypeNum).isSome = false :=
  ⟨rfl, rfl, rfl⟩

end Invoice
